import Mathlib

/-!
Verification of the spark-minemanager HTTP capture service.

The definitions below are a shallow embedding of the TypeScript sources:
  - src/redact.ts        (redactHeaders)
  - src/storage.ts       (saveMultipartFiles)
  - src/capture.ts       (registerCaptureRoute handler; src/unnamed/part_002)
  - src/health.ts        (incrementMetrics)
  - src/admin.ts         (registerAdminRoutes handlers)

Bytes are modelled as List Nat (each entry < 256 in practice), JavaScript
objects used as string-keyed maps are modelled as ordered association lists
with JS assignment semantics (insert keeps first-insertion order, assignment
to an existing key overwrites in place), and JS string operations on the
ASCII data relevant here (toLowerCase, toUpperCase, includes, startsWith,
split) are modelled over the character lists of Lean strings.
-/

/-- JS `String.prototype.toLowerCase` restricted to ASCII, which is the only
range exercised by header names and content types in this code base. -/
def lowerChar (c : Char) : Char :=
  if 65 ≤ c.toNat && c.toNat ≤ 90 then Char.ofNat (c.toNat + 32) else c

def strLower (s : String) : String := ⟨s.data.map lowerChar⟩

/-- JS `String.prototype.toUpperCase` restricted to ASCII (used for the
`method` filter in admin.ts). -/
def upperChar (c : Char) : Char :=
  if 97 ≤ c.toNat && c.toNat ≤ 122 then Char.ofNat (c.toNat - 32) else c

def strUpper (s : String) : String := ⟨s.data.map upperChar⟩

/-- `pre` is a prefix of `l` (models JS `String.prototype.startsWith`). -/
def listStarts : List Char → List Char → Bool
  | [], _ => true
  | _ :: _, [] => false
  | a :: pre, b :: l => a == b && listStarts pre l

def strStarts (s pre : String) : Bool := listStarts pre.data s.data

/-- `sub` occurs contiguously in `l` (models JS `String.prototype.includes`). -/
def listInfix : List Char → List Char → Bool
  | sub, [] => listStarts sub []
  | sub, b :: l => listStarts sub (b :: l) || listInfix sub l

def strIncludes (s sub : String) : Bool := listInfix sub.data s.data

/-- `join(dir, name)` from node:path as used here (no `..` segments occur). -/
def pathJoin (dir name : String) : String := dir ++ "/" ++ name

/-- JS object assignment `o[k] = v` on an ordered string-keyed map: overwrite
in place when the key exists, append otherwise. -/
def objSet {α : Type} : List (String × α) → String → α → List (String × α)
  | [], k, v => [(k, v)]
  | (k', v') :: rest, k, v =>
    if k' = k then (k, v) :: rest else (k', v') :: objSet rest k v

/-- Decimal digits of `n`, structurally recursive on a fuel argument so that
kernel evaluation works (`n + 1` fuel always suffices). -/
def natDigsAux : Nat → Nat → List Char
  | 0, _ => []
  | fuel + 1, n =>
    if n < 10 then [Char.ofNat (48 + n)]
    else natDigsAux fuel (n / 10) ++ [Char.ofNat (48 + n % 10)]

/-- Decimal rendering of a natural number (model of JS number-to-string for
the integer values that occur here). -/
def natToStr (n : Nat) : String := ⟨natDigsAux (n + 1) n⟩

def intToStr (i : Int) : String :=
  if i < 0 then "-" ++ natToStr i.natAbs else natToStr i.natAbs

/-- A header value as typed in redact.ts:
`string | string[] | undefined`. -/
inductive HVal where
  | str (s : String)
  | arr (ss : List String)
  | undef
deriving DecidableEq

/-- From src/redact.ts, `redactHeaders`: for each entry of the headers object
(in order), replace the value by the literal `"[REDACTED]"` when the
lower-cased key is contained in the deny list, otherwise keep the entry.
The deny list is `getRedactedFields()` in the source; it is a parameter here. -/
def redactHeaders (denyList : List String) : List (String × HVal) → List (String × HVal)
  | [] => []
  | (k, v) :: rest =>
    (if denyList.contains (strLower k) then (k, HVal.str "[REDACTED]") else (k, v))
      :: redactHeaders denyList rest

/-! ## JSON values and `JSON.stringify`

The framework's JSON body parser hands the route handler a parsed JSON
value; `JSON.stringify` is applied to it in the `application/json` branch of
the capture handler and to the synthesized multipart summary.  The mutual
inductive below is the value domain (numbers restricted to the integers,
which is all these claims exercise). -/

mutual
inductive JsonVal where
  | null
  | bool (b : Bool)
  | num (i : Int)
  | str (s : String)
  | arr (xs : JsonArr)
  | obj (kvs : JsonObj)

inductive JsonArr where
  | nil
  | cons (hd : JsonVal) (tl : JsonArr)

inductive JsonObj where
  | nil
  | cons (k : String) (v : JsonVal) (tl : JsonObj)
end

def hexDig (d : Nat) : Char :=
  if d < 10 then Char.ofNat (48 + d) else Char.ofNat (87 + d)

/-- Escaping of one character inside a JSON string literal, as
`JSON.stringify` does it. -/
def escChar (c : Char) : List Char :=
  if c = Char.ofNat 34 then [Char.ofNat 92, Char.ofNat 34]
  else if c = Char.ofNat 92 then [Char.ofNat 92, Char.ofNat 92]
  else if c = Char.ofNat 8 then [Char.ofNat 92, 'b']
  else if c = Char.ofNat 9 then [Char.ofNat 92, 't']
  else if c = Char.ofNat 10 then [Char.ofNat 92, 'n']
  else if c = Char.ofNat 12 then [Char.ofNat 92, 'f']
  else if c = Char.ofNat 13 then [Char.ofNat 92, 'r']
  else if c.toNat < 32 then
    [Char.ofNat 92, 'u', '0', '0', hexDig (c.toNat / 16), hexDig (c.toNat % 16)]
  else [c]

def jsonEscape (s : String) : String := ⟨(s.data.map escChar).flatten⟩

/-- A JSON string literal: quote, escaped content, quote. -/
def jsonStr (s : String) : String := "\"" ++ jsonEscape s ++ "\""

mutual
/-- `JSON.stringify` on our JSON value domain. -/
def stringifyJson : JsonVal → String
  | .null => "null"
  | .bool true => "true"
  | .bool false => "false"
  | .num i => intToStr i
  | .str s => jsonStr s
  | .arr xs => "[" ++ stringifyArr xs ++ "]"
  | .obj kvs => "\x7b" ++ stringifyObj kvs ++ "\x7d"

def stringifyArr : JsonArr → String
  | .nil => ""
  | .cons x .nil => stringifyJson x
  | .cons x (.cons y tl) => stringifyJson x ++ "," ++ stringifyArr (.cons y tl)

def stringifyObj : JsonObj → String
  | .nil => ""
  | .cons k v .nil => jsonStr k ++ ":" ++ stringifyJson v
  | .cons k v (.cons k2 v2 tl) =>
    jsonStr k ++ ":" ++ stringifyJson v ++ "," ++ stringifyObj (.cons k2 v2 tl)
end

mutual
/-- JS `String(v)` conversion for a parsed JSON value (only reachable in the
text/binary branches, so only its totality matters for the claims):
`String(null) = "null"`, booleans and numbers print themselves, arrays join
their converted elements with commas (with `null` contributing the empty
string), and plain objects print `[object Object]`. -/
def jsString : JsonVal → String
  | .null => "null"
  | .bool true => "true"
  | .bool false => "false"
  | .num i => intToStr i
  | .str s => s
  | .arr xs => jsArrString xs
  | .obj _ => "[object Object]"

def jsArrString : JsonArr → String
  | .nil => ""
  | .cons x .nil => jsElemString x
  | .cons x (.cons y tl) => jsElemString x ++ "," ++ jsArrString (.cons y tl)

/-- Inside `Array.prototype.toString`, `null` elements render as empty. -/
def jsElemString : JsonVal → String
  | .null => ""
  | v => jsString v
end

/-- JS truthiness of a parsed JSON value. -/
def jsonTruthy : JsonVal → Bool
  | .null => false
  | .bool b => b
  | .num i => i != 0
  | .str s => s != ""
  | .arr _ => true
  | .obj _ => true

/-! ## UTF-8 encoding (`Buffer.from(s, 'utf8')`) -/

/-- Standard UTF-8 encoding of one scalar value. -/
def utf8Bytes (c : Char) : List Nat :=
  if c.toNat < 128 then [c.toNat]
  else if c.toNat < 2048 then [192 + c.toNat / 64, 128 + c.toNat % 64]
  else if c.toNat < 65536 then
    [224 + c.toNat / 4096, 128 + (c.toNat / 64) % 64, 128 + c.toNat % 64]
  else
    [240 + c.toNat / 262144, 128 + (c.toNat / 4096) % 64, 128 + (c.toNat / 64) % 64,
      128 + c.toNat % 64]

/-- `Buffer.from(s, 'utf8')` as a byte list. -/
def utf8Encode (s : String) : List Nat := (s.data.map utf8Bytes).flatten

/-! ## Multipart materializer (src/storage.ts, `saveMultipartFiles`) -/

/-- One part of the multipart stream, in arrival order.  A file part's
`filename` and `mimetype` are modelled as strings where `""` stands for a
missing value, matching the JS `||` fallbacks in the source.  A field part
carries its content already UTF-8-decoded, as `Buffer.concat(...).toString('utf8')`
produces it. -/
inductive MPart where
  | file (filename : String) (fieldname : String) (mimetype : String) (content : List Nat)
  | field (fieldname : String) (value : String)
deriving DecidableEq

structure UploadedFileData where
  id : String
  requestId : String
  fieldName : String
  originalName : String
  mimeType : Option String
  size : Nat
  diskPath : String
deriving DecidableEq

/-- Result of `saveMultipartFiles`, extended with the sequence of
`fs.writeFile(diskPath, fileBuffer)` calls it performs (path, bytes), in
order, so that on-disk effects can be reasoned about. -/
structure MultipartResult where
  files : List UploadedFileData
  fields : List (String × String)
  writes : List (String × List Nat)
deriving DecidableEq

/-- The `for await (const part of parts)` loop of `saveMultipartFiles`.
`ids` is the `ulid()` generator: the n-th call yields `ids n`; `n` counts the
calls made so far (one per file part).  `fields` is the accumulated fields
object, updated with JS assignment semantics (last occurrence of a field
name wins). -/
def runParts (ids : Nat → String) (requestDir requestId : String) :
    List MPart → Nat → List (String × String) →
    List UploadedFileData × List (String × String) × List (String × List Nat)
  | [], _, fields => ([], fields, [])
  | .file fname fieldname mimetype content :: rest, n, fields =>
    let fileId := ids n
    let filename := if fname = "" then "file-" ++ fileId else fname
    let diskPath := pathJoin requestDir filename
    let fd : UploadedFileData :=
      ⟨fileId, requestId, fieldname, filename,
        (if mimetype = "" then none else some mimetype), content.length, diskPath⟩
    let r := runParts ids requestDir requestId rest (n + 1) fields
    (fd :: r.1, r.2.1, (diskPath, content) :: r.2.2)
  | .field fieldname value :: rest, n, fields =>
    runParts ids requestDir requestId rest n (objSet fields fieldname value)

/-- `saveMultipartFiles(request, requestId, uploadDir)`: creates the
per-request directory `join(uploadDir, requestId)` and drains the parts. -/
def saveMultipartFiles (ids : Nat → String) (uploadDir requestId : String)
    (parts : List MPart) : MultipartResult :=
  let r := runParts ids (pathJoin uploadDir requestId) requestId parts 0 []
  ⟨r.1, r.2.1, r.2.2⟩

/-- The indices at which `runParts` consumes fresh ids: one per file part,
in arrival order. -/
def fileIdxs : List MPart → Nat → List Nat
  | [], _ => []
  | .file _ _ _ _ :: rest, n => n :: fileIdxs rest (n + 1)
  | .field _ _ :: rest, n => fileIdxs rest n

/-- The generated identifiers handed out during one materialization. -/
def usedIds (ids : Nat → String) (parts : List MPart) : List String :=
  (fileIdxs parts 0).map ids

/-- The on-disk content at path `p` after a sequence of `writeFile` calls:
each write replaces whatever was at its path before. -/
def diskAfter (writes : List (String × List Nat)) (p : String) : Option (List Nat) :=
  (writes.foldl (fun d w => objSet d w.1 w.2) []).lookup p

/-! ## Capture handler (src/capture.ts, `registerCaptureRoute`) -/

/-- `request.body` as produced by the framework's registered body parsers:
the built-in JSON parser (`application/json` bodies become parsed JSON
values), the built-in text parser (`text/plain` bodies become strings) and
@fastify/multipart (multipart bodies leave `request.body` undefined; the
parts come through `request.parts()`).  No binary content-type parser is
registered in src/index.ts, so a Buffer body never occurs and the
`Buffer.isBuffer(request.body)` test in the binary branch is always false. -/
inductive ReqBody where
  | undef
  | str (s : String)
  | json (v : JsonVal)

/-- JS truthiness of `request.body` (the `else if (request.body)` guard). -/
def bodyTruthy : ReqBody → Bool
  | .undef => false
  | .str s => s != ""
  | .json v => jsonTruthy v

/-- The string the `application/json` branch encodes:
`typeof request.body === 'string' ? request.body : JSON.stringify(request.body)`.
The `undef` case is unreachable (guarded by truthiness). -/
def stringifyOf : ReqBody → String
  | .undef => ""
  | .str s => s
  | .json v => stringifyJson v

/-- The string the text and binary branches encode:
`typeof request.body === 'string' ? request.body : String(request.body)`.
The `undef` case is unreachable (guarded by truthiness). -/
def jsStringOf : ReqBody → String
  | .undef => ""
  | .str s => s
  | .json v => jsString v

/-- `contentType && contentType.includes(sub)` (an empty content-type header
is already collapsed to `undefined` by `... || undefined` in the source). -/
def ctIncludes (ct : Option String) (sub : String) : Bool :=
  match ct with
  | some s => strIncludes s sub
  | none => false

/-- The text-like test of the third branch:
`contentType.startsWith('text/') || contentType.includes('application/xml')
 || contentType.includes('application/x-www-form-urlencoded')`. -/
def ctTextLike (ct : Option String) : Bool :=
  match ct with
  | some s =>
    strStarts s "text/" || strIncludes s "application/xml" ||
      strIncludes s "application/x-www-form-urlencoded"
  | none => false

/-- The full (untruncated) byte encoding each non-multipart branch derives
from the body before applying the `maxBytes` cap. -/
def encodeBody (ct : Option String) (b : ReqBody) : List Nat :=
  if ctIncludes ct "application/json" then utf8Encode (stringifyOf b)
  else utf8Encode (jsStringOf b)

/-- `url.split('?')[0]` (the query string is stripped from the stored path). -/
def takeUntilQ : List Char → List Char
  | [] => []
  | c :: rest => if c = '?' then [] else c :: takeUntilQ rest

def pathOfUrl (url : String) : String := ⟨takeUntilQ url.data⟩

/-- The route-exemption test at the top of the handler:
`request.url.startsWith('/admin') || startsWith('/healthz') ||
 startsWith('/readyz') || startsWith('/metrics')` → respond 404, capture
nothing. -/
def isExempt (url : String) : Bool :=
  strStarts url "/admin" || strStarts url "/healthz" ||
    strStarts url "/readyz" || strStarts url "/metrics"

/-- The synthesized multipart summary object
`{hasFiles, fileCount, fields}` handed to `JSON.stringify`. -/
def fieldsToJsonObj : List (String × String) → JsonObj
  | [] => .nil
  | (k, v) :: rest => .cons k (.str v) (fieldsToJsonObj rest)

def multipartSummary (hasFiles : Bool) (fileCount : Nat)
    (fields : List (String × String)) : JsonVal :=
  .obj (.cons "hasFiles" (.bool hasFiles)
    (.cons "fileCount" (.num fileCount)
      (.cons "fields" (.obj (fieldsToJsonObj fields)) .nil)))

/-- Success/failure of the effectful steps inside the handler's `try` block:
a disk or stream error inside `saveMultipartFiles`, a failure of
`prisma.capturedRequest.create`, and a failure of
`prisma.uploadedFile.createMany`.  Any `false` flag that is reached makes
the handler take its `catch` branch. -/
structure Effects where
  multipartOk : Bool
  insertOk : Bool
  filesInsertOk : Bool

/-- Everything of the inbound request the handler reads. -/
structure CaptureInput where
  url : String
  method : String
  ip : Option String
  contentType : Option String
  contentLength : Option Nat
  headers : List (String × HVal)
  query : List (String × String)
  body : ReqBody
  parts : List MPart

/-- Server configuration the handler consults (`env.MAX_BODY_BYTES`,
`env.UPLOAD_DIR`, `getRedactedFields()`). -/
structure Config where
  maxBytes : Nat
  uploadDir : String
  denyList : List String

/-- The row handed to `prisma.capturedRequest.create` (rawBodyBytes is the
value after `rawBodyBytes || undefined`; a Buffer — even an empty one — is
truthy, so a present byte list always passes through). -/
structure CapturedRecord where
  id : String
  ip : Option String
  method : String
  path : String
  query : List (String × String)
  headers : List (String × HVal)
  contentType : Option String
  contentLength : Option Nat
  rawBodyBytes : Option (List Nat)
  rawBodyEncoding : Option String
  truncated : Bool
  hasFiles : Bool
deriving DecidableEq

/-- One `incrementMetrics(method, status, bytesIn, filesCount)` call. -/
structure MetricEvent where
  method : String
  status : Nat
  bytesInc : Nat
  filesCount : Nat
deriving DecidableEq

/-- The body-classification block (lines 42-100 of the handler):
multipart → materialize and synthesize the JSON summary; otherwise branch on
content type, UTF-8-encode and cap at `maxBytes` (prefix truncation), with
`base64` as the declared storage encoding in the binary branch. -/
def processBody (cfg : Config) (requestId : String) (ids : Nat → String)
    (ct : Option String) (body : ReqBody) (parts : List MPart) (eff : Effects) :
    Except Unit
      (Option (List Nat) × Option String × Bool × Bool × List UploadedFileData) :=
  if ctIncludes ct "multipart/form-data" then
    if eff.multipartOk then
      let mp := saveMultipartFiles ids cfg.uploadDir requestId parts
      let hasFiles := decide (mp.files.length > 0)
      let doc := multipartSummary hasFiles mp.files.length mp.fields
      .ok (some (utf8Encode (stringifyJson doc)), some "utf8", false, hasFiles, mp.files)
    else .error ()
  else if bodyTruthy body then
    if ctIncludes ct "application/json" then
      if (utf8Encode (stringifyOf body)).length > cfg.maxBytes then
        .ok (some ((utf8Encode (stringifyOf body)).take cfg.maxBytes),
          some "utf8", true, false, [])
      else .ok (some (utf8Encode (stringifyOf body)), some "utf8", false, false, [])
    else if ctTextLike ct then
      if (utf8Encode (jsStringOf body)).length > cfg.maxBytes then
        .ok (some ((utf8Encode (jsStringOf body)).take cfg.maxBytes),
          some "utf8", true, false, [])
      else .ok (some (utf8Encode (jsStringOf body)), some "utf8", false, false, [])
    else
      .ok (some (if (utf8Encode (jsStringOf body)).length > cfg.maxBytes then
            (utf8Encode (jsStringOf body)).take cfg.maxBytes
          else utf8Encode (jsStringOf body)),
        some "base64", decide ((utf8Encode (jsStringOf body)).length > cfg.maxBytes),
        false, [])
  else .ok (none, none, false, false, [])

/-- The body of the handler's `try` block after the exemption check: classify
the body, insert the request row, insert the file rows if any, count the
metrics, respond ok.  Any failure propagates to the `catch`. -/
def captureTry (cfg : Config) (inp : CaptureInput) (requestId : String)
    (ids : Nat → String) (eff : Effects) :
    Except Unit (CapturedRecord × List UploadedFileData × MetricEvent) :=
  match processBody cfg requestId ids inp.contentType inp.body inp.parts eff with
  | .error e => .error e
  | .ok (raw, enc, truncated, hasFiles, uploadedFiles) =>
    if eff.insertOk then
      if uploadedFiles.length > 0 && !eff.filesInsertOk then .error ()
      else
        let row : CapturedRecord :=
          ⟨requestId, inp.ip, inp.method, pathOfUrl inp.url, inp.query,
            redactHeaders cfg.denyList inp.headers, inp.contentType,
            inp.contentLength, raw, enc, truncated, hasFiles⟩
        .ok (row, uploadedFiles,
          ⟨inp.method, 200, (raw.map List.length).getD 0, uploadedFiles.length⟩)
    else .error ()

/-- The three response shapes of the catch-all route:
`404 {"error":"Not found"}` for exempt prefixes,
`200 {"status":"ok","request_id":<id>}` on success,
`500 {"status":"error","request_id":<id>,"error":"Internal server error"}`
from the catch block. -/
inductive Resp where
  | notFound
  | ok (request_id : String)
  | err (request_id : String)
deriving DecidableEq

structure CaptureOutcome where
  resp : Resp
  record : Option (CapturedRecord × List UploadedFileData)
  events : List MetricEvent

/-- The whole catch-all handler.  `requestId` is the `ulid()` drawn at the
very top of the handler, before the exemption check and before any body
processing; `ids` supplies the further `ulid()` calls made per file part. -/
def captureHandler (cfg : Config) (inp : CaptureInput) (requestId : String)
    (ids : Nat → String) (eff : Effects) : CaptureOutcome :=
  if isExempt inp.url then ⟨.notFound, none, []⟩
  else
    match captureTry cfg inp requestId ids eff with
    | .ok (row, files, ev) => ⟨.ok requestId, some (row, files), [ev]⟩
    | .error _ => ⟨.err requestId, none, []⟩

/-! ## In-memory metrics (src/health.ts) -/

structure Metrics where
  totalCaptured : Nat
  byMethod : List (String × Nat)
  byStatus : List (String × Nat)
  bytesIn : Nat
  filesStored : Nat

def initMetrics : Metrics := ⟨0, [], [], 0, 0⟩

/-- `m[k] = (m[k] || 0) + 1` on a JS object used as a counter map. -/
def objBump (kvs : List (String × Nat)) (k : String) : List (String × Nat) :=
  objSet kvs k ((kvs.lookup k).getD 0 + 1)

/-- `` `${Math.floor(status / 100)}xx` `` -/
def statusClass (status : Nat) : String := natToStr (status / 100) ++ "xx"

/-- `incrementMetrics(method, status, bytesIn, filesCount)` from health.ts. -/
def incrementMetrics (m : Metrics) (method : String) (status bIn fCnt : Nat) : Metrics :=
  ⟨m.totalCaptured + 1, objBump m.byMethod method,
    objBump m.byStatus (statusClass status), m.bytesIn + bIn, m.filesStored + fCnt⟩

def applyEvents (m : Metrics) (es : List MetricEvent) : Metrics :=
  es.foldl (fun acc e => incrementMetrics acc e.method e.status e.bytesInc e.filesCount) m

/-! ## Admin query layer (src/admin.ts) -/

/-- A `captured_requests` row, restricted to the columns the admin routes
consult.  Timestamps are Nat (milliseconds). -/
structure RequestRow where
  id : String
  ts : Nat
  method : String
  path : String
  hasFiles : Bool
  deletedAt : Option Nat
deriving DecidableEq

/-- An `uploaded_files` row, restricted to the columns the admin routes
consult. -/
structure FileRow where
  id : String
  requestId : String
  originalName : String
  diskPath : String
deriving DecidableEq

structure DB where
  requests : List RequestRow
  files : List FileRow
deriving DecidableEq

/-- The parsed query of `GET /admin/requests` (limit/offset already parsed,
defaults 50/0 applied; absent filters are `none` — in JS an empty-string
query value is falsy and likewise skips the filter). -/
structure ListFilters where
  limit : Nat
  offset : Nat
  method : Option String
  pathPref : Option String
  sinceTs : Option Nat
  untilTs : Option Nat
  hasFilesQ : Option Bool

/-- The Prisma `where` clause built by the listing route: always
`deletedAt: null`, then the optional filters (`method.toUpperCase()` exact
match, path `startsWith`, `ts` range, `hasFiles` equality). -/
def matchesWhere (f : ListFilters) (r : RequestRow) : Bool :=
  r.deletedAt.isNone &&
  (match f.method with | none => true | some m => r.method == strUpper m) &&
  (match f.pathPref with | none => true | some p => strStarts r.path p) &&
  (match f.sinceTs with | none => true | some t => t ≤ r.ts) &&
  (match f.untilTs with | none => true | some t => r.ts ≤ t) &&
  (match f.hasFilesQ with | none => true | some b => r.hasFiles == b)

/-- Stable insertion into a list sorted by descending `ts` (model of
`orderBy: { ts: 'desc' }`). -/
def insertDescTs (r : RequestRow) : List RequestRow → List RequestRow
  | [] => [r]
  | x :: xs => if r.ts ≤ x.ts then x :: insertDescTs r xs else r :: x :: xs

def sortDescTs (l : List RequestRow) : List RequestRow :=
  l.foldr insertDescTs []

/-- `GET /admin/requests`: filter, order by `ts` descending, `skip` the
offset, `take` the limit. -/
def listRequests (db : DB) (f : ListFilters) : List RequestRow :=
  (((sortDescTs (db.requests.filter (matchesWhere f))).drop f.offset).take f.limit)

/-- `prisma.capturedRequest.findUnique({ where: { id } })` (id is the primary
key; on a well-formed database ids are unique and `find?` returns the row). -/
def findRequest (db : DB) (id : String) : Option RequestRow :=
  db.requests.find? (fun r => r.id == id)

inductive AdminResult (α : Type) where
  | notFound
  | ok (val : α)
deriving DecidableEq

/-- `GET /admin/requests/:id`: 404 when the row is absent or has `deletedAt`
set, 200 with the row otherwise. -/
def getRequestById (db : DB) (id : String) : AdminResult RequestRow :=
  match findRequest db id with
  | none => .notFound
  | some r => if r.deletedAt.isSome then .notFound else .ok r

/-- `GET /admin/requests/:id/files`: same 404 rule on the owning request,
then the files with `requestId = id`. -/
def getRequestFiles (db : DB) (id : String) : AdminResult (List FileRow) :=
  match findRequest db id with
  | none => .notFound
  | some r =>
    if r.deletedAt.isSome then .notFound
    else .ok (db.files.filter (fun f => f.requestId == id))

/-- `GET /admin/files/:fileId`: 404 when the file row is absent, when the
owning request is soft-deleted, or when the path is missing on disk
(`fs.access` fails); otherwise the file is streamed.  `disk` is the set of
paths present on disk.  The inner `none` request case is unreachable on a
database satisfying the foreign-key constraint (`include: { request: true }`
on a required relation). -/
def downloadFile (db : DB) (disk : List String) (fileId : String) : AdminResult FileRow :=
  match db.files.find? (fun f => f.id == fileId) with
  | none => .notFound
  | some f =>
    match findRequest db f.requestId with
    | none => .notFound
    | some owner =>
      if owner.deletedAt.isSome then .notFound
      else if disk.contains f.diskPath then .ok f
      else .notFound

/-- `DELETE /admin/older-than`: `updateMany` with
`where: { ts: { lt: cutoffDate }, deletedAt: null }` and
`data: { deletedAt: new Date() }`; returns the updated database and the
affected-row count. -/
def deleteOlderThan (db : DB) (cutoff now : Nat) : DB × Nat :=
  (⟨db.requests.map (fun r =>
      if r.deletedAt.isNone && decide (r.ts < cutoff) then
        { r with deletedAt := some now } else r),
    db.files⟩,
   (db.requests.filter (fun r => r.deletedAt.isNone && decide (r.ts < cutoff))).length)

/-- The route around it: `days = parseInt(request.query.days || '30', 10)`
and `cutoff = now - days` days (calendar arithmetic modelled as a fixed
86400000 ms per day). -/
def olderThanRoute (db : DB) (daysParam : Option Nat) (now : Nat) : DB × Nat :=
  deleteOlderThan db (now - (daysParam.getD 30) * 86400000) now


/-! ## Helper lemmas -/

theorem objSet_keys {α : Type} (kvs : List (String × α)) (k : String) (v : α) :
    ∀ k' ∈ (objSet kvs k v).map Prod.fst, k' = k ∨ k' ∈ kvs.map Prod.fst := by
  induction kvs with
  | nil => simp [objSet]
  | cons p rest ih =>
    obtain ⟨pk, pv⟩ := p
    by_cases h : pk = k
    · simp [objSet, h]
    · intro k' hk'
      simp only [objSet, if_neg h, List.map_cons, List.mem_cons] at hk'
      rcases hk' with rfl | hk'
      · simp
      · rcases ih k' hk' with rfl | hmem
        · exact Or.inl rfl
        · exact Or.inr (by simp [hmem])

theorem lookup_eq_none_of_all {α : Type} (kvs : List (String × α)) (a : String)
    (h : ∀ k ∈ kvs.map Prod.fst, k ≠ a) : kvs.lookup a = none := by
  induction kvs with
  | nil => rfl
  | cons p rest ih =>
    obtain ⟨pk, pv⟩ := p
    have hne : pk ≠ a := h pk (by simp)
    have hb : (a == pk) = false := beq_eq_false_iff_ne.mpr (fun he => hne he.symm)
    simp only [List.lookup, hb]
    exact ih (fun k hk => h k (by simp [hk]))

theorem find_eq_of_nodup {α : Type} (key : α → String) {l : List α}
    (h : (l.map key).Nodup) {x : α} (hx : x ∈ l) :
    l.find? (fun y => key y == key x) = some x := by
  induction l with
  | nil => cases hx
  | cons a tl ih =>
    simp only [List.map_cons, List.nodup_cons] at h
    rcases List.mem_cons.mp hx with rfl | hxt
    · simp [List.find?]
    · have hne : (key a == key x) = false := by
        refine beq_eq_false_iff_ne.mpr ?_
        intro he
        exact h.1 (he ▸ List.mem_map_of_mem key hxt)
      simp only [List.find?, hne]
      exact ih h.2 hxt

theorem mem_insertDescTs {a r : RequestRow} {l : List RequestRow} :
    a ∈ insertDescTs r l ↔ a = r ∨ a ∈ l := by
  induction l with
  | nil => simp [insertDescTs]
  | cons x xs ih =>
    simp only [insertDescTs]
    split
    · simp only [List.mem_cons, ih]
      tauto
    · simp only [List.mem_cons]
      try tauto

theorem mem_sortDescTs {a : RequestRow} {l : List RequestRow} :
    a ∈ sortDescTs l ↔ a ∈ l := by
  induction l with
  | nil => simp [sortDescTs]
  | cons x xs ih =>
    simp only [sortDescTs, List.foldr_cons] at *
    rw [mem_insertDescTs, ih, List.mem_cons]

theorem str_append_ne_empty_right {s t : String} (h : t ≠ "") : s ++ t ≠ "" := by
  intro he
  apply h
  have hd := congrArg String.data he
  rw [String.data_append] at hd
  have ht : t.data = [] := (List.append_eq_nil.mp hd).2
  cases t
  simp_all

theorem natDigsAux_ne_nil (fuel n : Nat) : natDigsAux (fuel + 1) n ≠ [] := by
  simp only [natDigsAux]
  split <;> simp

theorem natToStr_ne_empty (n : Nat) : natToStr n ≠ "" := by
  intro he
  exact natDigsAux_ne_nil n n (congrArg String.data he)

theorem intToStr_ne_empty (i : Int) : intToStr i ≠ "" := by
  unfold intToStr
  split
  · exact str_append_ne_empty_right (natToStr_ne_empty _)
  · exact natToStr_ne_empty _

theorem stringifyJson_ne_empty (v : JsonVal) : stringifyJson v ≠ "" := by
  cases v with
  | null => decide
  | bool b => cases b <;> decide
  | num i => exact intToStr_ne_empty i
  | str s =>
    simp only [stringifyJson, jsonStr]
    exact str_append_ne_empty_right (by decide)
  | arr xs =>
    simp only [stringifyJson]
    exact str_append_ne_empty_right (by decide)
  | obj kvs =>
    simp only [stringifyJson]
    exact str_append_ne_empty_right (by decide)

theorem utf8Bytes_ne_nil (c : Char) : utf8Bytes c ≠ [] := by
  unfold utf8Bytes
  split
  · simp
  · split
    · simp
    · split <;> simp

theorem utf8Encode_ne_nil {s : String} (h : s ≠ "") : utf8Encode s ≠ [] := by
  unfold utf8Encode
  obtain ⟨l⟩ := s
  cases l with
  | nil => exact absurd rfl h
  | cons c cs =>
    simp only [List.map_cons, List.flatten_cons]
    intro he
    exact utf8Bytes_ne_nil c (List.append_eq_nil.mp he).1

theorem take_ne_nil_of_pos {bs : List Nat} {n : Nat} (h : bs ≠ []) (hn : 0 < n) :
    bs.take n ≠ [] := by
  cases bs with
  | nil => exact absurd rfl h
  | cons b r =>
    cases n with
    | zero => omega
    | succ m => simp

/-! ## C7 — redaction filter -/

/-- C7: for every header mapping H and deny-list D, `redactHeaders` rewrites
each entry in place — preserving every key with its original casing and
position — replacing the value with the fixed marker `[REDACTED]` exactly
when the lower-cased key is in D and keeping it unchanged otherwise, and it
is idempotent. -/
theorem redactHeaders_spec (D : List String) (H : List (String × HVal)) :
    redactHeaders D H
      = H.map (fun p =>
          if D.contains (strLower p.1) then (p.1, HVal.str "[REDACTED]") else p)
    ∧ (redactHeaders D H).map Prod.fst = H.map Prod.fst
    ∧ redactHeaders D (redactHeaders D H) = redactHeaders D H := by
  have hmap : ∀ L : List (String × HVal), redactHeaders D L
      = L.map (fun p =>
          if D.contains (strLower p.1) then (p.1, HVal.str "[REDACTED]") else p) := by
    intro L
    induction L with
    | nil => rfl
    | cons p rest ih =>
      obtain ⟨k, v⟩ := p
      by_cases h : D.contains (strLower k) = true <;> simp [redactHeaders, h, ih]
  refine ⟨hmap H, ?_, ?_⟩
  · rw [hmap H, List.map_map]
    refine List.map_congr_left ?_
    intro p _
    by_cases h : strLower p.1 ∈ D <;> simp [h]
  · rw [hmap (redactHeaders D H), hmap H, List.map_map]
    refine List.map_congr_left ?_
    intro p _
    by_cases h : strLower p.1 ∈ D <;> simp [h]

/-! ## C9 — bulk age-based soft delete -/

/-- C9: `DELETE /admin/older-than` soft-deletes exactly the rows that are
not yet soft-deleted and whose timestamp is strictly older than the cutoff
(`now - N days`, N defaulting to 30): the affected count is the size of that
set, matching rows get `deletedAt` set, all other rows pass through
unchanged, no row is added or removed, and a second call with the same
cutoff affects 0 rows. -/
theorem olderThan_exact_idempotent (db : DB) (cutoff now now2 : Nat)
    (r : RequestRow) (hr : r ∈ db.requests) :
    (deleteOlderThan db cutoff now).2
        = (db.requests.filter
            (fun x => x.deletedAt.isNone && decide (x.ts < cutoff))).length
    ∧ (deleteOlderThan db cutoff now).1.requests.length = db.requests.length
    ∧ (r.deletedAt = none → r.ts < cutoff →
        { r with deletedAt := some now } ∈ (deleteOlderThan db cutoff now).1.requests)
    ∧ (¬ (r.deletedAt = none ∧ r.ts < cutoff) →
        r ∈ (deleteOlderThan db cutoff now).1.requests)
    ∧ (deleteOlderThan (deleteOlderThan db cutoff now).1 cutoff now2).2 = 0
    ∧ olderThanRoute db none now = deleteOlderThan db (now - 30 * 86400000) now := by
  refine ⟨rfl, by simp [deleteOlderThan], ?_, ?_, ?_, rfl⟩
  · intro h1 h2
    have := List.mem_map_of_mem
      (fun x : RequestRow =>
        if x.deletedAt.isNone && decide (x.ts < cutoff) then
          { x with deletedAt := some now } else x) hr
    simpa [deleteOlderThan, h1, h2] using this
  · intro hno
    have := List.mem_map_of_mem
      (fun x : RequestRow =>
        if x.deletedAt.isNone && decide (x.ts < cutoff) then
          { x with deletedAt := some now } else x) hr
    have hcond : (r.deletedAt.isNone && decide (r.ts < cutoff)) = false := by
      by_cases hd : r.deletedAt = none
      · have hts : ¬ r.ts < cutoff := fun hlt => hno ⟨hd, hlt⟩
        simp [hts]
      · simp [Option.isNone_iff_eq_none, hd]
    simpa [deleteOlderThan, hcond] using this
  · simp only [deleteOlderThan]
    rw [List.length_eq_zero, List.filter_eq_nil_iff]
    intro x hx
    rcases List.mem_map.mp hx with ⟨y, _, rfl⟩
    by_cases hc : (y.deletedAt.isNone && decide (y.ts < cutoff)) = true
    · rw [if_pos hc]
      simp
    · rw [if_neg hc]
      exact hc

def rowW : RequestRow := ⟨"r1", 100, "GET", "/a", false, none⟩

def dbW : DB := ⟨[rowW, ⟨"r2", 900, "POST", "/b", false, none⟩], []⟩

/-- Witness for C9 at a concrete database: row r1 (ts 100) is strictly older
than cutoff 200, gets soft-deleted, and a second pass deletes nothing. -/
theorem olderThan_exact_idempotent_witness :
    rowW ∈ dbW.requests
    ∧ (deleteOlderThan dbW 200 5).2
        = (dbW.requests.filter
            (fun x => x.deletedAt.isNone && decide (x.ts < 200))).length
    ∧ { rowW with deletedAt := some 5 } ∈ (deleteOlderThan dbW 200 5).1.requests
    ∧ (deleteOlderThan (deleteOlderThan dbW 200 5).1 200 6).2 = 0 := by
  have h := olderThan_exact_idempotent dbW 200 5 6 rowW (by decide)
  exact ⟨by decide, h.1, h.2.2.1 rfl (by decide), h.2.2.2.2.1⟩

/-! ## C10 — metrics are incremented on the success path only -/

theorem captureTry_status (cfg : Config) (inp : CaptureInput) (rid : String)
    (ids : Nat → String) (eff : Effects) (row : CapturedRecord)
    (files : List UploadedFileData) (ev : MetricEvent)
    (h : captureTry cfg inp rid ids eff = .ok (row, files, ev)) :
    ev.status = 200 := by
  unfold captureTry at h
  split at h
  · cases h
  · split at h
    · split at h
      · cases h
      · simp only [Except.ok.injEq, Prod.mk.injEq] at h
        obtain ⟨-, -, h3⟩ := h
        rw [← h3]
    · cases h

theorem captureTry_insert_fail (cfg : Config) (inp : CaptureInput) (rid : String)
    (ids : Nat → String) (eff : Effects) (h : eff.insertOk = false) :
    captureTry cfg inp rid ids eff = .error () := by
  unfold captureTry
  split
  · rfl
  · simp [h]

theorem byStatus_keys_all (es : List MetricEvent) :
    ∀ m : Metrics, (∀ e ∈ es, e.status = 200) →
      (∀ k ∈ m.byStatus.map Prod.fst, k = "2xx") →
      ∀ k ∈ (applyEvents m es).byStatus.map Prod.fst, k = "2xx" := by
  induction es with
  | nil =>
    intro m _ hm
    simpa [applyEvents] using hm
  | cons e tl ih =>
    intro m h200 hm
    have he : e.status = 200 := h200 e (by simp)
    have hstep : ∀ k ∈ (incrementMetrics m e.method e.status e.bytesInc
        e.filesCount).byStatus.map Prod.fst, k = "2xx" := by
      intro k hk
      simp only [incrementMetrics, objBump] at hk
      rcases objSet_keys m.byStatus (statusClass e.status) _ k hk with rfl | hk2
      · rw [he]
        decide
      · exact hm k hk2
    have hstepeq : applyEvents m (e :: tl)
        = applyEvents (incrementMetrics m e.method e.status e.bytesInc e.filesCount) tl :=
      rfl
    rw [hstepeq]
    exact ih _ (fun x hx => h200 x (by simp [hx])) hstep

/-! ## C8 — soft-deleted requests are hidden from all admin reads -/

/-- C8: a soft-deleted request (deletedAt set) never appears in the
`GET /admin/requests` listing, while the single-record endpoint, the
per-request file listing, and the download of any file it owns all answer
404 — although the request row and its file rows are still physically in
the database.  The Nodup hypotheses are the primary-key uniqueness the
store guarantees. -/
theorem softDeleted_hidden (db : DB) (disk : List String) (flt : ListFilters)
    (r : RequestRow) (f : FileRow) (d : Nat)
    (hreq : (db.requests.map RequestRow.id).Nodup)
    (hfil : (db.files.map FileRow.id).Nodup)
    (hr : r ∈ db.requests) (hdel : r.deletedAt = some d)
    (hf : f ∈ db.files) (hfr : f.requestId = r.id) :
    r ∉ listRequests db flt
    ∧ getRequestById db r.id = .notFound
    ∧ getRequestFiles db r.id = .notFound
    ∧ downloadFile db disk f.id = .notFound
    ∧ r ∈ db.requests ∧ f ∈ db.files := by
  have hfind : findRequest db r.id = some r := by
    unfold findRequest
    exact find_eq_of_nodup RequestRow.id hreq hr
  have hfindf : db.files.find? (fun y => y.id == f.id) = some f :=
    find_eq_of_nodup FileRow.id hfil hf
  refine ⟨?_, ?_, ?_, ?_, hr, hf⟩
  · intro hmem
    unfold listRequests at hmem
    have h1 : r ∈ sortDescTs (db.requests.filter (matchesWhere flt)) :=
      List.mem_of_mem_drop (List.mem_of_mem_take hmem)
    have h2 : r ∈ db.requests.filter (matchesWhere flt) := mem_sortDescTs.mp h1
    have h3 := List.of_mem_filter h2
    unfold matchesWhere at h3
    simp [hdel] at h3
  · unfold getRequestById
    rw [hfind]
    simp [hdel]
  · unfold getRequestFiles
    rw [hfind]
    simp [hdel]
  · simp [downloadFile, hfindf, hfr, hfind, hdel]

def rowDel : RequestRow := ⟨"rd", 50, "GET", "/x", true, some 7⟩

def fileD : FileRow := ⟨"fd", "rd", "a.bin", "up/rd/a.bin"⟩

def dbDel : DB := ⟨[rowDel], [fileD]⟩

def fltAll : ListFilters := ⟨50, 0, none, none, none, none, none⟩

/-- Witness for C8 on a concrete soft-deleted row and its file. -/
theorem softDeleted_hidden_witness :
    rowDel ∈ dbDel.requests ∧ rowDel.deletedAt = some 7
    ∧ rowDel ∉ listRequests dbDel fltAll
    ∧ getRequestById dbDel "rd" = .notFound
    ∧ getRequestFiles dbDel "rd" = .notFound
    ∧ downloadFile dbDel [] "fd" = .notFound := by
  have h := softDeleted_hidden dbDel [] fltAll rowDel fileD 7 (by decide) (by decide)
    (by decide) (by decide) (by decide) (by decide)
  exact ⟨by decide, by decide, h.1, h.2.1, h.2.2.1, h.2.2.2.1⟩

/-! ## C5 / C6 — capture surface and response contract -/

theorem processBody_ok (cfg : Config) (rid : String) (ids : Nat → String)
    (ct : Option String) (body : ReqBody) (parts : List MPart) (eff : Effects)
    (hmp : eff.multipartOk = true) :
    ∃ x, processBody cfg rid ids ct body parts eff = .ok x := by
  unfold processBody
  rw [hmp]
  split
  · exact ⟨_, if_pos rfl⟩
  · split
    · split
      · split
        · exact ⟨_, rfl⟩
        · exact ⟨_, rfl⟩
      · split
        · split
          · exact ⟨_, rfl⟩
          · exact ⟨_, rfl⟩
        · exact ⟨_, rfl⟩
    · exact ⟨_, rfl⟩

theorem captureTry_ok_of_effects (cfg : Config) (inp : CaptureInput) (rid : String)
    (ids : Nat → String) (eff : Effects)
    (h1 : eff.multipartOk = true) (h2 : eff.insertOk = true)
    (h3 : eff.filesInsertOk = true) :
    ∃ y, captureTry cfg inp rid ids eff = .ok y := by
  obtain ⟨⟨raw, enc, tr, hf, ups⟩, hpb⟩ := processBody_ok cfg rid ids
    inp.contentType inp.body inp.parts eff h1
  refine ⟨(⟨rid, inp.ip, inp.method, pathOfUrl inp.url, inp.query,
      redactHeaders cfg.denyList inp.headers, inp.contentType, inp.contentLength,
      raw, enc, tr, hf⟩, ups,
      ⟨inp.method, 200, (raw.map List.length).getD 0, ups.length⟩), ?_⟩
  unfold captureTry
  rw [hpb]
  dsimp only
  rw [if_pos h2, if_neg (by simp [h3])]

/-- C5 (amended): the capture decision is a prefix test on the request URL —
a request is captured (a record is produced, on a failure-free run) exactly
when its URL does not start with `/admin`, `/healthz`, `/readyz` or
`/metrics`; every URL with one of those four prefixes is answered 404 and
not captured, including URLs like `/adminfoo` that are not under `/admin/`
and are not one of the three literal operational paths. -/
theorem capture_surface_by_url_start (cfg : Config) (inp : CaptureInput)
    (rid : String) (ids : Nat → String) (eff : Effects)
    (h1 : eff.multipartOk = true) (h2 : eff.insertOk = true)
    (h3 : eff.filesInsertOk = true) :
    ((captureHandler cfg inp rid ids eff).resp = Resp.notFound
        ↔ isExempt inp.url = true)
    ∧ ((captureHandler cfg inp rid ids eff).record ≠ none
        ↔ isExempt inp.url = false) := by
  by_cases hex : isExempt inp.url = true
  · simp [captureHandler, hex]
  · obtain ⟨⟨row, files, ev⟩, hy⟩ := captureTry_ok_of_effects cfg inp rid ids eff h1 h2 h3
    simp [captureHandler, hex, hy]

def cids : Nat → String := fun n => "ID" ++ natToStr n

def effOk : Effects := ⟨true, true, true⟩

def cfg0 : Config := ⟨10, "up", []⟩

def inpAdmin : CaptureInput :=
  ⟨"/adminfoo", "GET", none, none, none, [], [], .undef, []⟩

/-- The exemption set exactly as the spec words it: the three literal
operational paths plus the paths under `/admin/` (refinement target for C5,
written from the spec, not from the code). -/
def specExemptSet (url : String) : Bool :=
  url == "/healthz" || url == "/readyz" || url == "/metrics" ||
    strStarts url "/admin/"

/-- C5 counterexample: `/adminfoo` is not `/healthz`, `/readyz`, `/metrics`,
nor under `/admin/*`, yet the handler's `startsWith('/admin')` test exempts
it from capture (404, no record), so "exactly those paths are exempt" fails
on the code. -/
theorem capture_surface_cex :
    isExempt "/adminfoo" = true
    ∧ specExemptSet "/adminfoo" = false
    ∧ (captureHandler cfg0 inpAdmin "RID" cids effOk).resp = Resp.notFound
    ∧ (captureHandler cfg0 inpAdmin "RID" cids effOk).record = none := by
  refine ⟨by decide, by decide, by decide, by decide⟩

def inpPlain : CaptureInput :=
  ⟨"/x", "GET", none, none, none, [], [], .undef, []⟩

/-- Witness for C5 (amended) on a concrete non-exempt request. -/
theorem capture_surface_by_url_start_witness :
    effOk.multipartOk = true ∧ effOk.insertOk = true ∧ effOk.filesInsertOk = true
    ∧ isExempt inpPlain.url = false
    ∧ (captureHandler cfg0 inpPlain "RID" cids effOk).record ≠ none := by
  have h := capture_surface_by_url_start cfg0 inpPlain "RID" cids effOk rfl rfl rfl
  exact ⟨rfl, rfl, rfl, by decide, h.2.mpr (by decide)⟩

/-! ## C1 — multipart identities and on-disk paths -/

theorem runParts_files_ids (ids : Nat → String) (dir rid : String) :
    ∀ (parts : List MPart) (n : Nat) (fields : List (String × String)),
      (runParts ids dir rid parts n fields).1.map UploadedFileData.id
        = (fileIdxs parts n).map ids := by
  intro parts
  induction parts with
  | nil => intro n fields; rfl
  | cons p rest ih =>
    intro n fields
    cases p with
    | file fname fieldname mimetype content => simp [runParts, fileIdxs, ih]
    | field fieldname value => simp [runParts, fileIdxs, ih]

theorem runParts_files_paths (ids : Nat → String) (dir rid : String) :
    ∀ (parts : List MPart) (n : Nat) (fields : List (String × String)),
      (runParts ids dir rid parts n fields).1.map UploadedFileData.diskPath
        = (runParts ids dir rid parts n fields).1.map
            (fun f => pathJoin dir f.originalName) := by
  intro parts
  induction parts with
  | nil => intro n fields; rfl
  | cons p rest ih =>
    intro n fields
    cases p with
    | file fname fieldname mimetype content => simp [runParts, ih]
    | field fieldname value => simp [runParts, ih]

theorem fileIdxs_ge :
    ∀ (parts : List MPart) (n : Nat), ∀ m ∈ fileIdxs parts n, n ≤ m := by
  intro parts
  induction parts with
  | nil => simp [fileIdxs]
  | cons p rest ih =>
    intro n
    cases p with
    | file fname fieldname mimetype content =>
      intro m hm
      simp only [fileIdxs, List.mem_cons] at hm
      rcases hm with rfl | hm
      · exact Nat.le_refl m
      · have := ih (n + 1) m hm
        omega
    | field fieldname value =>
      intro m hm
      exact ih n m (by simpa [fileIdxs] using hm)

theorem fileIdxs_nodup : ∀ (parts : List MPart) (n : Nat), (fileIdxs parts n).Nodup := by
  intro parts
  induction parts with
  | nil => simp [fileIdxs]
  | cons p rest ih =>
    intro n
    cases p with
    | file fname fieldname mimetype content =>
      simp only [fileIdxs, List.nodup_cons]
      refine ⟨?_, ih (n + 1)⟩
      intro hmem
      have := fileIdxs_ge rest (n + 1) n hmem
      omega
    | field fieldname value =>
      simpa [fileIdxs] using ih n

theorem pathJoin_inj (dir : String) : Function.Injective (pathJoin dir) := by
  intro a b h
  unfold pathJoin at h
  have hd := congrArg String.data h
  rw [String.data_append, String.data_append, String.data_append,
    String.data_append] at hd
  have hlist := List.append_cancel_left hd
  exact String.ext (by simpa using hlist)

/-- C1 (amended): every file part gets its own freshly generated identifier
(one `ulid()` per file part, in order — so the ids are pairwise distinct
whenever the generator never repeats), but the on-disk path is
`uploadDir/requestId/<declared filename>` (or `file-<id>` only when no
filename was declared), so paths are unique only when the resolved
filenames are pairwise distinct; two file parts declaring the same filename
share one path and the later write overwrites the earlier one. -/
theorem multipart_ids_and_paths (ids : Nat → String) (uploadDir rid : String)
    (parts : List MPart) :
    (saveMultipartFiles ids uploadDir rid parts).files.map UploadedFileData.id
        = usedIds ids parts
    ∧ ((usedIds ids parts).Nodup →
        ((saveMultipartFiles ids uploadDir rid parts).files.map
          UploadedFileData.id).Nodup)
    ∧ (((saveMultipartFiles ids uploadDir rid parts).files.map
          UploadedFileData.originalName).Nodup →
        ((saveMultipartFiles ids uploadDir rid parts).files.map
          UploadedFileData.diskPath).Nodup) := by
  have hids : (saveMultipartFiles ids uploadDir rid parts).files.map UploadedFileData.id
      = usedIds ids parts :=
    runParts_files_ids ids (pathJoin uploadDir rid) rid parts 0 []
  have hpaths : (saveMultipartFiles ids uploadDir rid parts).files.map
        UploadedFileData.diskPath
      = (saveMultipartFiles ids uploadDir rid parts).files.map
          (fun f => pathJoin (pathJoin uploadDir rid) f.originalName) :=
    runParts_files_paths ids (pathJoin uploadDir rid) rid parts 0 []
  refine ⟨hids, ?_, ?_⟩
  · intro h
    rw [hids]
    exact h
  · intro h
    rw [hpaths, show (fun f : UploadedFileData =>
        pathJoin (pathJoin uploadDir rid) f.originalName)
      = (pathJoin (pathJoin uploadDir rid)) ∘ UploadedFileData.originalName from rfl,
      ← List.map_map]
    exact List.Nodup.map (pathJoin_inj (pathJoin uploadDir rid)) h

def dupParts : List MPart :=
  [.file "a.txt" "f1" "" [1], .file "a.txt" "f2" "" [2]]

/-- C1 counterexample: two file parts declaring the same filename receive
distinct generated ids but the very same on-disk path `up/RID/a.txt`, and
after both writes the disk holds only the second part's bytes — the first
file has been overwritten, so the claim's unique-path/no-overwrite guarantee
fails on the code. -/
theorem multipart_dup_filename_overwrite :
    (saveMultipartFiles cids "up" "RID" dupParts).files.map UploadedFileData.diskPath
      = ["up/RID/a.txt", "up/RID/a.txt"]
    ∧ ¬ ((saveMultipartFiles cids "up" "RID" dupParts).files.map
          UploadedFileData.diskPath).Nodup
    ∧ ((saveMultipartFiles cids "up" "RID" dupParts).files.map
          UploadedFileData.id).Nodup
    ∧ diskAfter (saveMultipartFiles cids "up" "RID" dupParts).writes "up/RID/a.txt"
        = some [2] :=
  ⟨by decide, by decide, by decide, by decide⟩

def okParts : List MPart :=
  [.file "a.txt" "f1" "" [1], .field "note" "hi", .file "b.txt" "f2" "" [2, 3]]

/-- Witness for C1 (amended) on a concrete request with distinct declared
filenames. -/
theorem multipart_ids_and_paths_witness :
    (usedIds cids okParts).Nodup
    ∧ ((saveMultipartFiles cids "up" "RID" okParts).files.map
        UploadedFileData.id).Nodup
    ∧ ((saveMultipartFiles cids "up" "RID" okParts).files.map
        UploadedFileData.originalName).Nodup
    ∧ ((saveMultipartFiles cids "up" "RID" okParts).files.map
        UploadedFileData.diskPath).Nodup := by
  have h := multipart_ids_and_paths cids "up" "RID" okParts
  exact ⟨by decide, h.2.1 (by decide), by decide, h.2.2 (by decide)⟩

/-! ## C2 / C3 / C4 — body classification, truncation, and the encoding
invariant -/

/-- On a successful run, the handler's stored record is built verbatim from
the classifier output and the request metadata. -/
theorem captureHandler_record (cfg : Config) (inp : CaptureInput) (rid : String)
    (ids : Nat → String) (eff : Effects) (raw : Option (List Nat))
    (enc : Option String) (tr hf : Bool) (ups : List UploadedFileData)
    (hex : isExempt inp.url = false)
    (hpb : processBody cfg rid ids inp.contentType inp.body inp.parts eff
        = .ok (raw, enc, tr, hf, ups))
    (h2 : eff.insertOk = true)
    (h3 : (decide (ups.length > 0) && !eff.filesInsertOk) = false) :
    (captureHandler cfg inp rid ids eff).record
      = some (⟨rid, inp.ip, inp.method, pathOfUrl inp.url, inp.query,
          redactHeaders cfg.denyList inp.headers, inp.contentType,
          inp.contentLength, raw, enc, tr, hf⟩, ups) := by
  unfold captureHandler captureTry
  rw [hex]
  simp only [Bool.false_eq_true, if_false]
  rw [hpb]
  dsimp only
  rw [if_pos h2, if_neg (by simp [h3])]

theorem processBody_nonmultipart (cfg : Config) (rid : String) (ids : Nat → String)
    (ct : Option String) (body : ReqBody) (parts : List MPart) (eff : Effects)
    (hmp : ctIncludes ct "multipart/form-data" = false)
    (hb : bodyTruthy body = true) :
    processBody cfg rid ids ct body parts eff
      = .ok (some (if (encodeBody ct body).length > cfg.maxBytes then
              (encodeBody ct body).take cfg.maxBytes else encodeBody ct body),
          some (if (ctIncludes ct "application/json" || ctTextLike ct) = true
              then "utf8" else "base64"),
          decide ((encodeBody ct body).length > cfg.maxBytes), false, []) := by
  unfold processBody encodeBody
  rw [hmp, hb]
  by_cases hj : ctIncludes ct "application/json" = true
  · by_cases hlen : (utf8Encode (stringifyOf body)).length > cfg.maxBytes <;>
      simp [hj, hlen]
  · by_cases ht : ctTextLike ct = true
    · by_cases hlen : (utf8Encode (jsStringOf body)).length > cfg.maxBytes <;>
        simp [hj, ht, hlen]
    · simp [hj, ht]

/-- C2: for every non-multipart body processed by the handler, the stored
bytes are the branch's full encoding when it fits in `maxBytes`
(`truncated = false`), and exactly the `maxBytes`-byte prefix of that
encoding with `truncated = true` when it does not. -/
theorem nonmultipart_prefix_trunc (cfg : Config) (inp : CaptureInput)
    (rid : String) (ids : Nat → String) (eff : Effects)
    (hex : isExempt inp.url = false)
    (hmp : ctIncludes inp.contentType "multipart/form-data" = false)
    (hb : bodyTruthy inp.body = true)
    (h2 : eff.insertOk = true) :
    ∃ row, (captureHandler cfg inp rid ids eff).record = some (row, [])
      ∧ ((encodeBody inp.contentType inp.body).length ≤ cfg.maxBytes →
          row.rawBodyBytes = some (encodeBody inp.contentType inp.body)
          ∧ row.truncated = false)
      ∧ (cfg.maxBytes < (encodeBody inp.contentType inp.body).length →
          row.rawBodyBytes
              = some ((encodeBody inp.contentType inp.body).take cfg.maxBytes)
          ∧ row.truncated = true) := by
  have hpb := processBody_nonmultipart cfg rid ids inp.contentType inp.body
    inp.parts eff hmp hb
  have hrec := captureHandler_record cfg inp rid ids eff _ _ _ _ _ hex hpb h2 (by simp)
  refine ⟨_, hrec, ?_, ?_⟩
  · intro hle
    have hnl : ¬ (encodeBody inp.contentType inp.body).length > cfg.maxBytes := by omega
    constructor <;> simp [hnl]
  · intro hlt
    have hl : (encodeBody inp.contentType inp.body).length > cfg.maxBytes := hlt
    constructor <;> simp [hl]

def inpText : CaptureInput :=
  ⟨"/t", "POST", none, some "text/plain", none, [], [], .str "ab", []⟩

def cfg1 : Config := ⟨1, "up", []⟩

/-- Witness for C2 on a concrete 2-byte text body with a 1-byte cap. -/
theorem nonmultipart_prefix_trunc_witness :
    isExempt inpText.url = false
    ∧ ctIncludes inpText.contentType "multipart/form-data" = false
    ∧ bodyTruthy inpText.body = true
    ∧ (∃ row, (captureHandler cfg1 inpText "RID" cids effOk).record = some (row, [])
        ∧ ((encodeBody inpText.contentType inpText.body).length ≤ cfg1.maxBytes →
            row.rawBodyBytes = some (encodeBody inpText.contentType inpText.body)
            ∧ row.truncated = false)
        ∧ (cfg1.maxBytes < (encodeBody inpText.contentType inpText.body).length →
            row.rawBodyBytes
                = some ((encodeBody inpText.contentType inpText.body).take cfg1.maxBytes)
            ∧ row.truncated = true)) :=
  ⟨by decide, by decide, by decide,
    nonmultipart_prefix_trunc cfg1 inpText "RID" cids effOk (by decide) (by decide)
      (by decide) rfl⟩

theorem processBody_multipart (cfg : Config) (rid : String) (ids : Nat → String)
    (ct : Option String) (body : ReqBody) (parts : List MPart) (eff : Effects)
    (hct : ctIncludes ct "multipart/form-data" = true)
    (h1 : eff.multipartOk = true) :
    processBody cfg rid ids ct body parts eff
      = .ok (some (utf8Encode (stringifyJson (multipartSummary
            (decide ((saveMultipartFiles ids cfg.uploadDir rid parts).files.length > 0))
            (saveMultipartFiles ids cfg.uploadDir rid parts).files.length
            (saveMultipartFiles ids cfg.uploadDir rid parts).fields))),
          some "utf8", false,
          decide ((saveMultipartFiles ids cfg.uploadDir rid parts).files.length > 0),
          (saveMultipartFiles ids cfg.uploadDir rid parts).files) := by
  unfold processBody
  rw [hct, h1]
  simp

/-- C3: for a multipart request, the stored body is the UTF-8 encoding of
`JSON.stringify({hasFiles, fileCount, fields})` synthesized from the
materializer's output, the encoding tag is `utf8`, and `truncated = false`
for every `maxBytes` — the synthesized summary is never capped. -/
theorem multipart_summary_stored (cfg : Config) (inp : CaptureInput)
    (rid : String) (ids : Nat → String) (eff : Effects)
    (hex : isExempt inp.url = false)
    (hct : ctIncludes inp.contentType "multipart/form-data" = true)
    (h1 : eff.multipartOk = true) (h2 : eff.insertOk = true)
    (h3 : eff.filesInsertOk = true) :
    ∃ row, (captureHandler cfg inp rid ids eff).record
        = some (row, (saveMultipartFiles ids cfg.uploadDir rid inp.parts).files)
      ∧ row.rawBodyBytes = some (utf8Encode (stringifyJson (multipartSummary
            (decide ((saveMultipartFiles ids cfg.uploadDir rid inp.parts).files.length > 0))
            (saveMultipartFiles ids cfg.uploadDir rid inp.parts).files.length
            (saveMultipartFiles ids cfg.uploadDir rid inp.parts).fields)))
      ∧ row.rawBodyEncoding = some "utf8"
      ∧ row.truncated = false
      ∧ row.hasFiles
          = decide ((saveMultipartFiles ids cfg.uploadDir rid inp.parts).files.length > 0) := by
  have hpb := processBody_multipart cfg rid ids inp.contentType inp.body
    inp.parts eff hct h1
  have hrec := captureHandler_record cfg inp rid ids eff _ _ _ _ _ hex hpb h2
    (by simp [h3])
  exact ⟨_, hrec, rfl, rfl, rfl, rfl⟩

def inpMp : CaptureInput :=
  ⟨"/m", "POST", none, some "multipart/form-data; boundary=x", none, [], [],
    .undef, [.file "a.txt" "f" "" [1]]⟩

/-- Witness for C3 on a concrete one-file multipart request with a tiny
byte cap (the summary is still stored whole, untruncated). -/
theorem multipart_summary_stored_witness :
    isExempt inpMp.url = false
    ∧ ctIncludes inpMp.contentType "multipart/form-data" = true
    ∧ (∃ row, (captureHandler cfg1 inpMp "RID" cids effOk).record
        = some (row, (saveMultipartFiles cids cfg1.uploadDir "RID" inpMp.parts).files)
      ∧ row.rawBodyBytes = some (utf8Encode (stringifyJson (multipartSummary
            (decide ((saveMultipartFiles cids cfg1.uploadDir "RID" inpMp.parts).files.length > 0))
            (saveMultipartFiles cids cfg1.uploadDir "RID" inpMp.parts).files.length
            (saveMultipartFiles cids cfg1.uploadDir "RID" inpMp.parts).fields)))
      ∧ row.rawBodyEncoding = some "utf8"
      ∧ row.truncated = false
      ∧ row.hasFiles
          = decide ((saveMultipartFiles cids cfg1.uploadDir "RID" inpMp.parts).files.length > 0)) :=
  ⟨by decide, by decide,
    multipart_summary_stored cfg1 inpMp "RID" cids effOk (by decide) (by decide)
      rfl rfl rfl⟩

/-- The coupling between content type and parsed body that the registered
body parsers guarantee: a parsed JSON value in `request.body` only arises
from the framework's JSON parser, i.e. under an `application/json` content
type (string bodies come from the `text/plain` parser; multipart leaves the
body undefined; no other parser is registered in src/index.ts). -/
def parserConsistent (ct : Option String) (b : ReqBody) : Prop :=
  ∀ v, b = ReqBody.json v → ctIncludes ct "application/json" = true

/-- The C4 invariant on a produced record: an encoding tag is present iff
stored body bytes are present and non-empty. -/
def encodingMatchesBytes : Option (CapturedRecord × List UploadedFileData) → Prop
  | none => True
  | some (row, _) =>
    row.rawBodyEncoding.isSome ↔ ∃ bs, row.rawBodyBytes = some bs ∧ bs ≠ []

theorem stringifyOf_ne_empty {body : ReqBody} (hb : bodyTruthy body = true) :
    stringifyOf body ≠ "" := by
  cases body with
  | undef => cases hb
  | str s =>
    simp only [bodyTruthy, bne_iff_ne, ne_eq] at hb
    simpa [stringifyOf] using hb
  | json v => exact stringifyJson_ne_empty v

theorem jsStringOf_ne_empty {ct : Option String} {body : ReqBody}
    (hb : bodyTruthy body = true)
    (hpc : parserConsistent ct body)
    (hj : ctIncludes ct "application/json" = false) :
    jsStringOf body ≠ "" := by
  cases body with
  | undef => cases hb
  | str s =>
    simp only [bodyTruthy, bne_iff_ne, ne_eq] at hb
    simpa [jsStringOf] using hb
  | json v =>
    have hx := hpc v rfl
    rw [hx] at hj
    cases hj

theorem processBody_inv (cfg : Config) (rid : String) (ids : Nat → String)
    (ct : Option String) (body : ReqBody) (parts : List MPart) (eff : Effects)
    (hpc : parserConsistent ct body) (hmax : 0 < cfg.maxBytes) :
    ∀ raw enc tr hf ups,
      processBody cfg rid ids ct body parts eff = .ok (raw, enc, tr, hf, ups) →
      (enc.isSome ↔ ∃ bs, raw = some bs ∧ bs ≠ []) := by
  intro raw enc tr hf ups h
  unfold processBody at h
  by_cases hm : ctIncludes ct "multipart/form-data" = true
  · rw [if_pos hm] at h
    by_cases hmp : eff.multipartOk = true
    · rw [if_pos hmp] at h
      simp only [Except.ok.injEq, Prod.mk.injEq] at h
      obtain ⟨h1, h2, -, -, -⟩ := h
      rw [← h1, ← h2]
      simp only [Option.isSome_some, true_iff, Option.some.injEq]
      exact ⟨_, rfl, utf8Encode_ne_nil (stringifyJson_ne_empty _)⟩
    · rw [if_neg hmp] at h
      cases h
  · rw [if_neg hm] at h
    by_cases hb : bodyTruthy body = true
    · rw [if_pos hb] at h
      by_cases hj : ctIncludes ct "application/json" = true
      · rw [if_pos hj] at h
        have hne : utf8Encode (stringifyOf body) ≠ [] :=
          utf8Encode_ne_nil (stringifyOf_ne_empty hb)
        by_cases hlen : (utf8Encode (stringifyOf body)).length > cfg.maxBytes
        · rw [if_pos hlen] at h
          simp only [Except.ok.injEq, Prod.mk.injEq] at h
          obtain ⟨h1, h2, -, -, -⟩ := h
          rw [← h1, ← h2]
          simp only [Option.isSome_some, true_iff, Option.some.injEq]
          exact ⟨_, rfl, take_ne_nil_of_pos hne hmax⟩
        · rw [if_neg hlen] at h
          simp only [Except.ok.injEq, Prod.mk.injEq] at h
          obtain ⟨h1, h2, -, -, -⟩ := h
          rw [← h1, ← h2]
          simp only [Option.isSome_some, true_iff, Option.some.injEq]
          exact ⟨_, rfl, hne⟩
      · have hjf : ctIncludes ct "application/json" = false := by
          simpa using hj
        have hne : utf8Encode (jsStringOf body) ≠ [] :=
          utf8Encode_ne_nil (jsStringOf_ne_empty hb hpc hjf)
        rw [if_neg hj] at h
        by_cases ht : ctTextLike ct = true
        · rw [if_pos ht] at h
          by_cases hlen : (utf8Encode (jsStringOf body)).length > cfg.maxBytes
          · rw [if_pos hlen] at h
            simp only [Except.ok.injEq, Prod.mk.injEq] at h
            obtain ⟨h1, h2, -, -, -⟩ := h
            rw [← h1, ← h2]
            simp only [Option.isSome_some, true_iff, Option.some.injEq]
            exact ⟨_, rfl, take_ne_nil_of_pos hne hmax⟩
          · rw [if_neg hlen] at h
            simp only [Except.ok.injEq, Prod.mk.injEq] at h
            obtain ⟨h1, h2, -, -, -⟩ := h
            rw [← h1, ← h2]
            simp only [Option.isSome_some, true_iff, Option.some.injEq]
            exact ⟨_, rfl, hne⟩
        · rw [if_neg ht] at h
          simp only [Except.ok.injEq, Prod.mk.injEq] at h
          obtain ⟨h1, h2, -, -, -⟩ := h
          rw [← h1, ← h2]
          simp only [Option.isSome_some, true_iff, Option.some.injEq]
          by_cases hlen : (utf8Encode (jsStringOf body)).length > cfg.maxBytes
          · rw [if_pos hlen]
            exact ⟨_, rfl, take_ne_nil_of_pos hne hmax⟩
          · rw [if_neg hlen]
            exact ⟨_, rfl, hne⟩
    · rw [if_neg hb] at h
      simp only [Except.ok.injEq, Prod.mk.injEq] at h
      obtain ⟨h1, h2, -, -, -⟩ := h
      rw [← h1, ← h2]
      simp

theorem captureTry_row_inv (cfg : Config) (inp : CaptureInput) (rid : String)
    (ids : Nat → String) (eff : Effects) (row : CapturedRecord)
    (files : List UploadedFileData) (ev : MetricEvent)
    (hpc : parserConsistent inp.contentType inp.body) (hmax : 0 < cfg.maxBytes)
    (h : captureTry cfg inp rid ids eff = .ok (row, files, ev)) :
    row.rawBodyEncoding.isSome ↔ ∃ bs, row.rawBodyBytes = some bs ∧ bs ≠ [] := by
  unfold captureTry at h
  rcases hpb : processBody cfg rid ids inp.contentType inp.body inp.parts eff
    with e | ⟨raw, enc, tr, hf, ups⟩ <;> rw [hpb] at h
  · cases h
  · dsimp only at h
    split at h
    · split at h
      · cases h
      · simp only [Except.ok.injEq, Prod.mk.injEq] at h
        obtain ⟨hrow, -, -⟩ := h
        rw [← hrow]
        exact processBody_inv cfg rid ids inp.contentType inp.body inp.parts eff
          hpc hmax raw enc tr hf ups hpb
    · cases h

/-- C4: every record the capture handler produces satisfies the invariant
that `rawBodyEncoding` is set iff `rawBodyBytes` is present and non-empty
(given a positive byte cap and the content-type/body coupling the registered
parsers provide). -/
theorem encoding_iff_nonempty_body (cfg : Config) (inp : CaptureInput)
    (rid : String) (ids : Nat → String) (eff : Effects)
    (hpc : parserConsistent inp.contentType inp.body)
    (hmax : 0 < cfg.maxBytes) :
    encodingMatchesBytes (captureHandler cfg inp rid ids eff).record := by
  by_cases hex : isExempt inp.url = true
  · simp [captureHandler, hex, encodingMatchesBytes]
  · rcases hct : captureTry cfg inp rid ids eff with e | ⟨row, files, ev⟩
    · simp [captureHandler, hex, hct, encodingMatchesBytes]
    · have hrow := captureTry_row_inv cfg inp rid ids eff row files ev hpc hmax hct
      simpa [captureHandler, hex, hct, encodingMatchesBytes] using hrow

/-- Witness for C4 on a concrete text request. -/
theorem encoding_iff_nonempty_body_witness :
    parserConsistent inpText.contentType inpText.body
    ∧ 0 < cfg1.maxBytes
    ∧ encodingMatchesBytes (captureHandler cfg1 inpText "RID" cids effOk).record := by
  have hpc : parserConsistent inpText.contentType inpText.body := by
    intro v hv
    exact ReqBody.noConfusion hv
  exact ⟨hpc, by decide,
    encoding_iff_nonempty_body cfg1 inpText "RID" cids effOk hpc (by decide)⟩

/-! ## C6 / C10 — response contract and metrics, per failure mode -/

/-- A failed `try` block (any cause) makes the handler answer 500 with the
same pre-generated id, persist nothing, and count nothing. -/
theorem captureHandler_err (cfg : Config) (inp : CaptureInput) (rid : String)
    (ids : Nat → String) (eff : Effects) (e : Unit)
    (hex : isExempt inp.url = false)
    (h : captureTry cfg inp rid ids eff = .error e) :
    (captureHandler cfg inp rid ids eff).resp = Resp.err rid
    ∧ (captureHandler cfg inp rid ids eff).record = none
    ∧ (captureHandler cfg inp rid ids eff).events = [] := by
  refine ⟨?_, ?_, ?_⟩ <;> simp [captureHandler, hex, h]

/-- A successful `try` block makes the handler answer 200 with the same id
and persist a record. -/
theorem captureHandler_ok_resp (cfg : Config) (inp : CaptureInput) (rid : String)
    (ids : Nat → String) (eff : Effects)
    (y : CapturedRecord × List UploadedFileData × MetricEvent)
    (hex : isExempt inp.url = false)
    (h : captureTry cfg inp rid ids eff = .ok y) :
    (captureHandler cfg inp rid ids eff).resp = Resp.ok rid
    ∧ (captureHandler cfg inp rid ids eff).record ≠ none := by
  obtain ⟨row, files, ev⟩ := y
  refine ⟨?_, ?_⟩ <;> simp [captureHandler, hex, h]

/-- A disk/stream error inside `saveMultipartFiles` aborts the `try` block. -/
theorem captureTry_multipart_fail (cfg : Config) (inp : CaptureInput) (rid : String)
    (ids : Nat → String) (eff : Effects)
    (hct : ctIncludes inp.contentType "multipart/form-data" = true)
    (hmp : eff.multipartOk = false) :
    captureTry cfg inp rid ids eff = .error () := by
  have hpb : processBody cfg rid ids inp.contentType inp.body inp.parts eff
      = .error () := by
    unfold processBody
    rw [if_pos hct, if_neg (by simp [hmp])]
  unfold captureTry
  rw [hpb]

/-- A failing `uploadedFile.createMany` (reached only when file rows exist)
aborts the `try` block. -/
theorem captureTry_files_fail (cfg : Config) (inp : CaptureInput) (rid : String)
    (ids : Nat → String) (eff : Effects)
    (hct : ctIncludes inp.contentType "multipart/form-data" = true)
    (h1 : eff.multipartOk = true) (h2 : eff.insertOk = true)
    (h3 : eff.filesInsertOk = false)
    (hfl : (saveMultipartFiles ids cfg.uploadDir rid inp.parts).files.length > 0) :
    captureTry cfg inp rid ids eff = .error () := by
  have hpb := processBody_multipart cfg rid ids inp.contentType inp.body
    inp.parts eff hct h1
  unfold captureTry
  rw [hpb]
  dsimp only
  rw [if_pos h2, if_pos (by simp [h3, hfl])]

/-- C6: the request identifier is drawn before the exemption check and any
body processing (the `requestId` argument, fixed at the top of the handler),
and on the capture surface (non-exempt URLs) the handler answers nothing but
`200 {"status":"ok","request_id":<id>}` or
`500 {"status":"error","request_id":<id>,"error":"Internal server error"}`
with that same pre-generated identifier: 200 exactly when every step
succeeds, and 500 on each failure mode — multipart/disk materialization
error, request-row insert error, file-rows insert error — with nothing
persisted. -/
theorem capture_response_contract (cfg : Config) (inp : CaptureInput)
    (rid : String) (ids : Nat → String) (eff : Effects)
    (hex : isExempt inp.url = false) :
    ((captureHandler cfg inp rid ids eff).resp = Resp.ok rid
      ∨ (captureHandler cfg inp rid ids eff).resp = Resp.err rid)
    ∧ (eff.multipartOk = true → eff.insertOk = true → eff.filesInsertOk = true →
        (captureHandler cfg inp rid ids eff).resp = Resp.ok rid
        ∧ (captureHandler cfg inp rid ids eff).record ≠ none)
    ∧ (eff.insertOk = false →
        (captureHandler cfg inp rid ids eff).resp = Resp.err rid
        ∧ (captureHandler cfg inp rid ids eff).record = none)
    ∧ (ctIncludes inp.contentType "multipart/form-data" = true →
        eff.multipartOk = false →
        (captureHandler cfg inp rid ids eff).resp = Resp.err rid
        ∧ (captureHandler cfg inp rid ids eff).record = none)
    ∧ (ctIncludes inp.contentType "multipart/form-data" = true →
        eff.multipartOk = true → eff.insertOk = true → eff.filesInsertOk = false →
        (saveMultipartFiles ids cfg.uploadDir rid inp.parts).files.length > 0 →
        (captureHandler cfg inp rid ids eff).resp = Resp.err rid
        ∧ (captureHandler cfg inp rid ids eff).record = none) := by
  refine ⟨?_, ?_, ?_, ?_, ?_⟩
  · unfold captureHandler
    rw [hex]
    simp only [Bool.false_eq_true, if_false]
    rcases hct : captureTry cfg inp rid ids eff with e | ⟨row, files, ev⟩ <;>
      simp [hct]
  · intro h1 h2 h3
    obtain ⟨y, hy⟩ := captureTry_ok_of_effects cfg inp rid ids eff h1 h2 h3
    exact captureHandler_ok_resp cfg inp rid ids eff y hex hy
  · intro hio
    have he := captureHandler_err cfg inp rid ids eff () hex
      (captureTry_insert_fail cfg inp rid ids eff hio)
    exact ⟨he.1, he.2.1⟩
  · intro hct hmp
    have he := captureHandler_err cfg inp rid ids eff () hex
      (captureTry_multipart_fail cfg inp rid ids eff hct hmp)
    exact ⟨he.1, he.2.1⟩
  · intro hct h1 h2 h3 hfl
    have he := captureHandler_err cfg inp rid ids eff () hex
      (captureTry_files_fail cfg inp rid ids eff hct h1 h2 h3 hfl)
    exact ⟨he.1, he.2.1⟩

def effMpFail : Effects := ⟨false, true, true⟩

def effInsFail : Effects := ⟨true, false, true⟩

def effFilesFail : Effects := ⟨true, true, false⟩

/-- Witness for C6: on concrete requests, a failure-free run answers
200 ok with the pre-generated id, and each of the three failure modes
(request-row insert, multipart materialization, file-rows insert) answers
500 error with that same id. -/
theorem capture_response_contract_witness :
    isExempt inpPlain.url = false
    ∧ (captureHandler cfg0 inpPlain "RID" cids effOk).resp = Resp.ok "RID"
    ∧ (captureHandler cfg0 inpPlain "RID" cids effInsFail).resp = Resp.err "RID"
    ∧ isExempt inpMp.url = false
    ∧ ctIncludes inpMp.contentType "multipart/form-data" = true
    ∧ (captureHandler cfg0 inpMp "RID" cids effMpFail).resp = Resp.err "RID"
    ∧ (captureHandler cfg0 inpMp "RID" cids effFilesFail).resp = Resp.err "RID" := by
  have hok := capture_response_contract cfg0 inpPlain "RID" cids effOk (by decide)
  have hins := capture_response_contract cfg0 inpPlain "RID" cids effInsFail (by decide)
  have hmp := capture_response_contract cfg0 inpMp "RID" cids effMpFail (by decide)
  have hff := capture_response_contract cfg0 inpMp "RID" cids effFilesFail (by decide)
  exact ⟨by decide, (hok.2.1 rfl rfl rfl).1, (hins.2.2.1 rfl).1,
    by decide, by decide, (hmp.2.2.2.1 (by decide) rfl).1,
    (hff.2.2.2.2 (by decide) rfl rfl rfl (by decide)).1⟩

theorem captureHandler_events_of_error (cfg : Config) (inp : CaptureInput)
    (rid : String) (ids : Nat → String) (eff : Effects) (e : Unit)
    (h : captureTry cfg inp rid ids eff = .error e) :
    (captureHandler cfg inp rid ids eff).events = [] := by
  by_cases hex : isExempt inp.url = true
  · simp [captureHandler, hex]
  · simp [captureHandler, hex, h]

/-- C10: `incrementMetrics` runs only on the success path and always with
status 200; every capture that ends in the 500 response — and in particular
every failure mode: multipart/disk error, request-row insert error,
file-rows insert error — increments no counter, so the per-status-class
counter can only ever hold the `2xx` key and `5xx` is never present. -/
theorem metrics_success_only :
    (∀ cfg inp rid ids eff, ∀ e ∈ (captureHandler cfg inp rid ids eff).events,
        e.status = 200)
    ∧ (∀ cfg inp rid ids eff,
        (captureHandler cfg inp rid ids eff).resp = Resp.err rid →
        (captureHandler cfg inp rid ids eff).events = [])
    ∧ (∀ cfg inp rid ids eff e, captureTry cfg inp rid ids eff = .error e →
        (captureHandler cfg inp rid ids eff).events = [])
    ∧ (∀ cfg inp rid ids eff, eff.insertOk = false →
        (captureHandler cfg inp rid ids eff).events = [])
    ∧ (∀ cfg inp rid ids eff,
        ctIncludes inp.contentType "multipart/form-data" = true →
        eff.multipartOk = false →
        (captureHandler cfg inp rid ids eff).events = [])
    ∧ (∀ cfg inp rid ids (eff : Effects),
        ctIncludes inp.contentType "multipart/form-data" = true →
        eff.multipartOk = true → eff.insertOk = true → eff.filesInsertOk = false →
        (saveMultipartFiles ids cfg.uploadDir rid inp.parts).files.length > 0 →
        (captureHandler cfg inp rid ids eff).events = [])
    ∧ (∀ es : List MetricEvent, (∀ e ∈ es, e.status = 200) →
        (∀ k ∈ (applyEvents initMetrics es).byStatus.map Prod.fst, k = "2xx")
        ∧ (applyEvents initMetrics es).byStatus.lookup "5xx" = none) := by
  refine ⟨?_, ?_, ?_, ?_, ?_, ?_, ?_⟩
  · intro cfg inp rid ids eff e he
    by_cases hex : isExempt inp.url = true
    · simp [captureHandler, hex] at he
    · rcases hct : captureTry cfg inp rid ids eff with err | ⟨row, files, ev⟩
      · simp [captureHandler, hex, hct] at he
      · simp only [captureHandler, hex, hct, Bool.false_eq_true, if_false,
          List.mem_singleton] at he
        rw [he]
        exact captureTry_status cfg inp rid ids eff row files ev hct
  · intro cfg inp rid ids eff h
    by_cases hex : isExempt inp.url = true
    · simp [captureHandler, hex]
    · rcases hct : captureTry cfg inp rid ids eff with err | ⟨row, files, ev⟩
      · simp [captureHandler, hex, hct]
      · simp [captureHandler, hex, hct] at h
  · intro cfg inp rid ids eff e h
    exact captureHandler_events_of_error cfg inp rid ids eff e h
  · intro cfg inp rid ids eff hio
    exact captureHandler_events_of_error cfg inp rid ids eff ()
      (captureTry_insert_fail cfg inp rid ids eff hio)
  · intro cfg inp rid ids eff hct hmp
    exact captureHandler_events_of_error cfg inp rid ids eff ()
      (captureTry_multipart_fail cfg inp rid ids eff hct hmp)
  · intro cfg inp rid ids eff hct h1 h2 h3 hfl
    exact captureHandler_events_of_error cfg inp rid ids eff ()
      (captureTry_files_fail cfg inp rid ids eff hct h1 h2 h3 hfl)
  · intro es h200
    have hkeys := byStatus_keys_all es initMetrics h200 (by simp [initMetrics])
    refine ⟨hkeys, ?_⟩
    refine lookup_eq_none_of_all _ _ ?_
    intro k hk
    rw [hkeys k hk]
    decide

def demoEvents : List MetricEvent := [⟨"GET", 200, 3, 0⟩]

/-- Witness for C10: a concrete success-only trace yields a byStatus map
holding only `2xx`, and concrete failing captures (multipart error, insert
error, files-insert error) emit no metric events at all. -/
theorem metrics_success_only_witness :
    (applyEvents initMetrics demoEvents).byStatus.lookup "5xx" = none
    ∧ (applyEvents initMetrics demoEvents).byStatus.map Prod.fst = ["2xx"]
    ∧ (captureHandler cfg0 inpMp "RID" cids effMpFail).events = []
    ∧ (captureHandler cfg0 inpPlain "RID" cids effInsFail).events = []
    ∧ (captureHandler cfg0 inpMp "RID" cids effFilesFail).events = [] :=
  ⟨(metrics_success_only.2.2.2.2.2.2 demoEvents (by decide)).2, by decide,
    metrics_success_only.2.2.2.2.1 cfg0 inpMp "RID" cids effMpFail (by decide) rfl,
    metrics_success_only.2.2.2.1 cfg0 inpPlain "RID" cids effInsFail rfl,
    metrics_success_only.2.2.2.2.2.1 cfg0 inpMp "RID" cids effFilesFail (by decide)
      rfl rfl rfl (by decide)⟩
